import Mathlib

/-!
Verification of the `createMachine` finite-state-machine runtime
(`packages/core/src/create-machine.ts`).

The runtime is embedded shallowly: states, event types and handler names are
strings (the source compares them with `===`, and the wildcard `from` value is
the literal string `"*"`); key-value mappings (context, props, partial context
updates) are association lists over string keys; guard handlers are Lean
functions `Params V → Bool`; action handlers return `Option (Ctx V)` where
`none` models a handler that returns nothing (`void`).  Thrown configuration
errors are modelled with `Except String`.  Observable handler and listener
invocations are recorded in a trace so that claims about which handlers run,
with which arguments and in which order, can be stated.

The helper utilities `filter`, `sort`, `merge`, `freeze` are imported by the
source from a sibling package that is not part of the supplied sources; they
are modelled from the spec contracts stated for them (order-preserving filter,
stable sort, shallow merge with right precedence, mutation-rejecting freeze).
-/

/-- An event record; the runtime only ever inspects its `type` tag. -/
structure Event where
  type : String
deriving DecidableEq, Repr

/-- A key-value mapping (JS plain object) with string keys. -/
abbrev Ctx (V : Type) := List (String × V)

/-- Property lookup on a mapping: first binding of the key wins. -/
def lookupKey {V : Type} (c : Ctx V) (k : String) : Option V :=
  (c.find? (fun kv => kv.1 == k)).map (fun kv => kv.2)

/-- Shallow merge, the semantics of both the object spread
`\x7b...a, ...b\x7d` used in `send` and the external `merge(a, b)` utility
(modelled from the spec: shallow union of two mappings with `b`'s keys taking
precedence).  Keys of `a` keep their position (overwritten by `b` where
present); keys only in `b` are appended. -/
def jsMerge {V : Type} (a b : Ctx V) : Ctx V :=
  a.map (fun kv =>
    match lookupKey b kv.1 with
    | some v => (kv.1, v)
    | none => kv)
  ++ b.filter (fun kv => (lookupKey a kv.1).isNone)

/-- The arguments passed to guard and action handlers:
`\x7b context: getContext(), event, props: getProps() \x7d`. -/
structure Params (V : Type) where
  context : Ctx V
  event : Event
  props : Ctx V

/-- An action handler body.  `pure f` is an ordinary handler returning an
optional partial context update; `sendThen ev f` is a handler that first calls
`machine.send ev` synchronously on the same instance (re-entrant call) and
then returns `f params`. -/
inductive ActionBody (V : Type) where
  | pure (f : Params V → Option (Ctx V))
  | sendThen (ev : Event) (f : Params V → Option (Ctx V))

/-- One transition record of the configuration table.  `fromState` and
`toState` embed the source fields `from` and `to` (both Lean keywords); the
wildcard `from` value is the string `"*"`.  `priority` is optional and
defaults to `0` at comparison time. -/
structure MachineTransition where
  fromState : String
  event : String
  toState : String
  action : Option String := none
  guard : Option String := none
  priority : Option Int := none
deriving DecidableEq, Repr

/-- The machine configuration (`MachineConfig`).  The `actions` and `guards`
fields model the partial string-keyed handler maps: `actions a` is
`config.actions?.[a]`. -/
structure MachineConfig (V : Type) where
  context : Option (Ctx V) := none
  props : Option (Ctx V) := none
  initial : String
  transitions : List MachineTransition
  actions : String → Option (ActionBody V) := fun _ => none
  guards : String → Option (Params V → Bool) := fun _ => none

/-- A registered listener.  `id` models JS reference identity (the `Set`
stores listeners by reference); `fails s c p` tells whether the listener
throws when invoked with `(s, c, p)`. -/
structure Listener (V : Type) where
  id : Nat
  fails : String → Ctx V → Ctx V → Bool

/-- The mutable closure state of one machine instance. -/
structure Machine (V : Type) where
  config : MachineConfig V
  state : String
  context : Ctx V
  props : Ctx V
  running : Bool
  processing : Bool
  listeners : List (Listener V)

/-- Observable events of one dispatch: guard handler invocations, action
handler invocations, listener invocations (with their arguments) and
listener errors reported to the diagnostic channel (`console.error`). -/
inductive TraceEv (V : Type) where
  | guardCall (name : String)
  | actionCall (name : String)
  | listenerCall (id : Nat) (state : String) (context : Ctx V) (props : Ctx V)
  | listenerError (id : Nat)
deriving DecidableEq

/-- `createMachine(config)`: closed-over state is initialized from the
configuration, with empty-mapping defaults for context and props. -/
def createMachine {V : Type} (config : MachineConfig V) : Machine V :=
  { config := config
    state := config.initial
    context := config.context.getD []
    props := config.props.getD []
    running := false
    processing := false
    listeners := [] }

/-- `start()`: idempotent, flips `running` to true. -/
def start {V : Type} (m : Machine V) : Machine V :=
  if m.running then m else { m with running := true }

/-- `stop()`: idempotent, flips `running` to false. -/
def stop {V : Type} (m : Machine V) : Machine V :=
  if !m.running then m else { m with running := false }

/-- `getContext()` returns a (frozen) copy of the live context; as a pure
value it is the current context.  Freezing and object identity are modelled
separately by `SnapWorld` below. -/
def getContext {V : Type} (m : Machine V) : Ctx V := m.context

/-- `getProps()`; see `getContext`. -/
def getProps {V : Type} (m : Machine V) : Ctx V := m.props

/-- Error message of `throw new Error(...)` for a missing guard handler. -/
def guardNotFoundMsg (g : String) : String :=
  "Guard \"" ++ g ++ "\" not found."

/-- Error message for a missing action handler. -/
def actionNotFoundMsg (a : String) : String :=
  "Action \"" ++ a ++ "\" not found."

/-- The from/event match test of the filter predicate:
`(transition.from === '*' || transition.from === state) && transition.event === event.type`. -/
def transMatches (st : String) (ev : Event) (t : MachineTransition) : Bool :=
  (t.fromState == "*" || t.fromState == st) && t.event == ev.type

/-- The guarded candidate filter of `send` (the external `filter` utility is
modelled from the spec as order-preserving selection; the predicate can throw
when a named guard is missing, aborting the whole filter).  Returns the
surviving candidates (or the thrown error) together with the trace of guard
handler invocations made before returning. -/
def filterCandidates {V : Type} (cfg : MachineConfig V) (st : String)
    (ctx props : Ctx V) (ev : Event) :
    List MachineTransition → Except String (List MachineTransition) × List (TraceEv V)
  | [] => (Except.ok [], [])
  | t :: ts =>
    if transMatches st ev t then
      match t.guard with
      | none =>
        let r := filterCandidates cfg st ctx props ev ts
        (r.1.map (fun l => t :: l), r.2)
      | some g =>
        match cfg.guards g with
        | none => (Except.error (guardNotFoundMsg g), [])
        | some h =>
          let keep := h ⟨ctx, ev, props⟩
          let r := filterCandidates cfg st ctx props ev ts
          (r.1.map (fun l => if keep then t :: l else l), TraceEv.guardCall g :: r.2)
    else
      filterCandidates cfg st ctx props ev ts

/-- Priority of a transition: `transition.priority ?? 0`. -/
def prioOf (t : MachineTransition) : Int := t.priority.getD 0

/-- Stable insertion step for `sortCmp`: `a` is placed before the first
element it does not compare after. -/
def insertCmp {α : Type} (cmp : α → α → Int) (a : α) : List α → List α
  | [] => [a]
  | b :: l => if cmp a b ≤ 0 then a :: b :: l else b :: insertCmp cmp a l

/-- Modelled from the spec: the external `sort(seq, cmp)` utility returns a
new sequence ordered by `cmp`, preserving the relative order of `cmp`-equal
elements (stable sort).  Realized as a stable insertion sort. -/
def sortCmp {α : Type} (cmp : α → α → Int) : List α → List α
  | [] => []
  | a :: l => insertCmp cmp a (sortCmp cmp l)

/-- The comparator `(a, b) => (b.priority ?? 0) - (a.priority ?? 0)`
(descending priority). -/
def byPriorityDesc (a b : MachineTransition) : Int := prioOf b - prioOf a

/-- `sort(matches, (a, b) => (b.priority ?? 0) - (a.priority ?? 0))`. -/
def sortTransitions (l : List MachineTransition) : List MachineTransition :=
  sortCmp byPriorityDesc l

/-- The winning transition `sort(matches, ...)[0]` (none when no candidate). -/
def selectWinner (l : List MachineTransition) : Option MachineTransition :=
  (sortTransitions l).head?

/-- The notification loop of `notify()`: every currently registered listener
is invoked in order with the same `(state, contextSnapshot, propsSnapshot)`
arguments; a listener that throws is caught and its error reported to the
diagnostic channel (a `listenerError` trace entry), and iteration continues. -/
def notifyList {V : Type} (ls : List (Listener V)) (s : String) (c p : Ctx V) :
    List (TraceEv V) :=
  match ls with
  | [] => []
  | l :: rest =>
    (if l.fails s c p then
      [TraceEv.listenerCall l.id s c p, TraceEv.listenerError l.id]
    else
      [TraceEv.listenerCall l.id s c p]) ++ notifyList rest s c p

/-- `notify()` on a machine. -/
def notify {V : Type} (m : Machine V) : List (TraceEv V) :=
  notifyList m.listeners m.state (getContext m) (getProps m)

/-- The candidate computation of a `send` on machine `m`: the filter reads
the closed-over `state`, `context`, `props` and configuration. -/
def candSet {V : Type} (m : Machine V) (ev : Event) :
    Except String (List MachineTransition) × List (TraceEv V) :=
  filterCandidates m.config m.state m.context m.props ev m.config.transitions

/-- The body of `send`'s `try` block, parameterized by the function used for
re-entrant `machine.send` calls made from inside action handlers.  Returns
the machine after the dispatch, the thrown error (if any), and the trace.
All mutations performed before a throw are kept (no rollback). -/
def dispatch {V : Type}
    (sendFn : Machine V → Event → Machine V × Option String × List (TraceEv V))
    (m : Machine V) (ev : Event) :
    Machine V × Option String × List (TraceEv V) :=
  match candSet m ev with
  | (Except.error e, gtrace) => (m, some e, gtrace)
  | (Except.ok cands, gtrace) =>
    match selectWinner cands with
    | none => (m, none, gtrace)
    | some t =>
      let m2 : Machine V := { m with state := t.toState }
      match t.action with
      | none => (m2, none, gtrace ++ notify m2)
      | some a =>
        match m2.config.actions a with
        | none => (m2, some (actionNotFoundMsg a), gtrace)
        | some body =>
          let params : Params V := ⟨getContext m2, ev, getProps m2⟩
          match body with
          | ActionBody.pure f =>
            let m3 : Machine V :=
              match f params with
              | some r => { m2 with context := jsMerge m2.context r }
              | none => m2
            (m3, none, gtrace ++ [TraceEv.actionCall a] ++ notify m3)
          | ActionBody.sendThen ev2 f =>
            let inner := sendFn m2 ev2
            match inner.2.1 with
            | some e => (inner.1, some e, gtrace ++ [TraceEv.actionCall a] ++ inner.2.2)
            | none =>
              let mI := inner.1
              let m3 : Machine V :=
                match f params with
                | some r => { mI with context := jsMerge mI.context r }
                | none => mI
              (m3, none, gtrace ++ [TraceEv.actionCall a] ++ inner.2.2 ++ notify m3)

/-- `send(event)`.  The fuel argument bounds the nesting depth of re-entrant
sends made from action handlers (any positive fuel suffices, because a nested
send is stopped by the `processing` latch before recursing further).  Returns
the machine afterwards, the propagated error (if any) and the trace.  The
`processing` reset models the `finally` block and runs on every exit path. -/
def send {V : Type} : Nat → Machine V → Event → Machine V × Option String × List (TraceEv V)
  | 0, m, _ => (m, none, [])
  | fuel + 1, m, ev =>
    if !m.running then (m, none, [])
    else if m.processing then (m, none, [])
    else
      let r := dispatch (send fuel) { m with processing := true } ev
      ({ r.1 with processing := false }, r.2.1, r.2.2)

/-- `subscribe(listener, options)`: the listener is added to the set first;
with `immediate` (default `true`) it is then invoked synchronously once with
the current snapshot, outside any error handler, so a throw propagates.
`none` for the options argument models an absent options object. -/
def addListener {V : Type} (ls : List (Listener V)) (l : Listener V) :
    List (Listener V) :=
  if ls.any (fun l2 => l2.id == l.id) then ls else ls ++ [l]

def subscribe {V : Type} (m : Machine V) (l : Listener V) (options : Option Bool) :
    Machine V × Option String × List (TraceEv V) :=
  let immediate := options.getD true
  let m2 : Machine V := { m with listeners := addListener m.listeners l }
  if immediate then
    if l.fails m2.state (getContext m2) (getProps m2) then
      (m2, some "Listener error",
        [TraceEv.listenerCall l.id m2.state (getContext m2) (getProps m2)])
    else
      (m2, none, [TraceEv.listenerCall l.id m2.state (getContext m2) (getProps m2)])
  else
    (m2, none, [])

/-- The unsubscribe closure `() => listeners.delete(listener)`: removes the
listener with that identity (a no-op when absent). -/
def unsubscribe {V : Type} (m : Machine V) (id : Nat) : Machine V :=
  { m with listeners := m.listeners.filter (fun l => l.id != id) }

/-- `syncProps(newProps)`: shallow-merges onto the existing props and runs
the same notification routine as a transition. -/
def syncProps {V : Type} (m : Machine V) (newProps : Ctx V) :
    Machine V × List (TraceEv V) :=
  let m2 : Machine V := { m with props := jsMerge m.props newProps }
  (m2, notify m2)

/-! ### Object identity and freezing of snapshots

`getContext()` / `getProps()` return `freeze(\x7b...context\x7d)`: a fresh
object holding a copy of the live mapping, marked frozen.  To state the
aliasing and immutability claims, snapshot objects are modelled explicitly: a
`SnapWorld` holds the machine together with every snapshot object handed out
so far; an object reference is an index into that allocation list, and a
fresh allocation appends.  Writes address a reference. -/

/-- A heap object holding a mapping, with its frozen flag. -/
structure Snapshot (V : Type) where
  data : Ctx V
  frozen : Bool
deriving DecidableEq

/-- Modelled from the spec: the external `freeze(value)` utility returns a
value that rejects further mutation, throwing on write attempts.  Marks the
object frozen; `snapWrite` consults the flag. -/
def freeze {V : Type} (s : Snapshot V) : Snapshot V := { s with frozen := true }

/-- A property assignment `o[k] = v` on a mapping: overwrite in place, or
append a new binding. -/
def setKey {V : Type} (c : Ctx V) (k : String) (v : V) : Ctx V :=
  if (lookupKey c k).isSome then
    c.map (fun kv => if kv.1 == k then (kv.1, v) else kv)
  else
    c ++ [(k, v)]

/-- A write attempt on a snapshot object: throws when the object is frozen. -/
def snapWrite {V : Type} (s : Snapshot V) (k : String) (v : V) :
    Except String (Snapshot V) :=
  if s.frozen then
    Except.error "TypeError: cannot mutate a frozen snapshot"
  else
    Except.ok { s with data := setKey s.data k v }

/-- A machine instance together with every snapshot object it has handed
out; index `i` into `snaps` is the reference returned by the `i`-th accessor
call. -/
structure SnapWorld (V : Type) where
  machine : Machine V
  snaps : List (Snapshot V)

/-- `getContext()` at the heap level: allocates a fresh frozen object holding
a copy of the live context and returns its reference. -/
def getContextW {V : Type} (w : SnapWorld V) : SnapWorld V × Nat :=
  ({ w with snaps := w.snaps ++ [freeze ⟨w.machine.context, false⟩] }, w.snaps.length)

/-- `getProps()` at the heap level. -/
def getPropsW {V : Type} (w : SnapWorld V) : SnapWorld V × Nat :=
  ({ w with snaps := w.snaps ++ [freeze ⟨w.machine.props, false⟩] }, w.snaps.length)

/-- A write attempt through a snapshot reference. -/
def writeSnapW {V : Type} (w : SnapWorld V) (i : Nat) (k : String) (v : V) :
    Except String (SnapWorld V) :=
  match w.snaps.get? i with
  | none => Except.error "invalid reference"
  | some s =>
    match snapWrite s k v with
    | Except.error e => Except.error e
    | Except.ok s2 => Except.ok { w with snaps := w.snaps.set i s2 }

/-- A `send` at the heap level: the runtime only ever replaces its own live
mapping wholesale (`context = \x7b...context, ...result\x7d`); previously
handed-out snapshot objects are never touched. -/
def sendW {V : Type} (fuel : Nat) (w : SnapWorld V) (ev : Event) : SnapWorld V :=
  { w with machine := (send fuel w.machine ev).1 }

/-! ### Specification-side and auxiliary definitions -/

/-- The earliest element of maximal priority (ties go to the earlier one):
the transition the spec says must win. -/
def firstMax : List MachineTransition → Option MachineTransition
  | [] => none
  | a :: l =>
    match firstMax l with
    | none => some a
    | some b => if prioOf a < prioOf b then some b else some a

/-- Discriminator: is this trace event a listener invocation? -/
def isListenerCallEv {V : Type} : TraceEv V → Bool
  | TraceEv.listenerCall _ _ _ _ => true
  | _ => false

/-- Discriminator: is this trace event a guard handler invocation? -/
def isGuardCallEv {V : Type} : TraceEv V → Bool
  | TraceEv.guardCall _ => true
  | _ => false

/-- Discriminator: is this trace event an action handler invocation? -/
def isActionCallEv {V : Type} : TraceEv V → Bool
  | TraceEv.actionCall _ => true
  | _ => false

/-- Extract a listener invocation together with its arguments. -/
def callArgs {V : Type} : TraceEv V → Option (Nat × String × Ctx V × Ctx V)
  | TraceEv.listenerCall i s c p => some (i, s, c, p)
  | _ => none

/-! ### Concrete machines used to instantiate the theorems -/

/-- Two matching transitions with priorities 1 and 10 (the priority tests). -/
def exCfgA : MachineConfig Int :=
  { initial := "green"
    transitions := [
      { fromState := "green", event := "TOGGLE", toState := "red", priority := some 1 },
      { fromState := "*", event := "TOGGLE", toState := "green", priority := some 10 }] }

def exA : Machine Int := start (createMachine exCfgA)

/-- A transition naming an action absent from the actions mapping. -/
def exCfgB : MachineConfig Int :=
  { initial := "green"
    transitions := [
      { fromState := "green", event := "TOGGLE", toState := "red", action := some "increment" }] }

def exB : Machine Int := start (createMachine exCfgB)

/-- A transition naming a guard absent from the guards mapping. -/
def exCfgC : MachineConfig Int :=
  { initial := "green"
    transitions := [
      { fromState := "green", event := "TOGGLE", toState := "red", guard := some "canIncrement" }] }

def exC : Machine Int := start (createMachine exCfgC)

/-- The re-entrancy test machine: `increment` sends `RESET` from inside the
dispatch of `TOGGLE` and then returns a context update. -/
def exCfgD : MachineConfig Int :=
  { initial := "green"
    context := some [("count", 0)]
    transitions := [
      { fromState := "green", event := "TOGGLE", toState := "red", action := some "increment" },
      { fromState := "red", event := "RESET", toState := "green", action := some "reset" }]
    actions := fun a =>
      if a == "increment" then
        some (ActionBody.sendThen ⟨"RESET"⟩
          (fun p => some [("count", (lookupKey p.context "count").getD 0 + 1)]))
      else if a == "reset" then
        some (ActionBody.pure (fun _ => some [("count", 0)]))
      else none }

def exD : Machine Int := start (createMachine exCfgD)

/-- A rejecting guard on the priority-5 transition plus a lower-priority
guard-free survivor. -/
def exCfgE : MachineConfig Int :=
  { initial := "green"
    transitions := [
      { fromState := "green", event := "TOGGLE", toState := "red",
        guard := some "g", priority := some 5 },
      { fromState := "green", event := "TOGGLE", toState := "blue", priority := some 1 }]
    guards := fun g => if g == "g" then some (fun _ => false) else none }

def exE : Machine Int := start (createMachine exCfgE)

/-- The context-merge test machine: context starts at 5, the action adds 10. -/
def exCfgF : MachineConfig Int :=
  { initial := "green"
    context := some [("count", 5)]
    transitions := [
      { fromState := "green", event := "TOGGLE", toState := "red", action := some "increment" }]
    actions := fun a =>
      if a == "increment" then
        some (ActionBody.pure
          (fun p => some [("count", (lookupKey p.context "count").getD 0 + 10)]))
      else none }

def exF : Machine Int := start (createMachine exCfgF)

/-- A listener that always throws. -/
def exL1 : Listener Int := ⟨1, fun _ _ _ => true⟩

/-- A listener that never throws. -/
def exL2 : Listener Int := ⟨2, fun _ _ _ => false⟩

/-- A heap-level world around `exF` with no snapshots handed out yet. -/
def exW : SnapWorld Int := ⟨exF, []⟩

/-! ### Winner selection: the head of the stable descending sort -/

theorem insertCmp_head {α : Type} (cmp : α → α → Int) (a : α) (s : List α) :
    (insertCmp cmp a s).head? =
      match s.head? with
      | none => some a
      | some b => if cmp a b ≤ 0 then some a else some b := by
  cases s with
  | nil => rfl
  | cons b l =>
    simp only [insertCmp, List.head?_cons]
    split <;> simp

theorem selectWinner_eq_firstMax (l : List MachineTransition) :
    selectWinner l = firstMax l := by
  induction l with
  | nil => rfl
  | cons a l ih =>
    show (sortCmp byPriorityDesc (a :: l)).head? = _
    rw [sortCmp, insertCmp_head]
    have hs : (sortCmp byPriorityDesc l).head? = firstMax l := ih
    rw [hs]
    cases h : firstMax l with
    | none => simp [firstMax, h]
    | some b =>
      simp only [firstMax, h, byPriorityDesc]
      by_cases hlt : prioOf a < prioOf b
      · have : ¬ prioOf b - prioOf a ≤ 0 := by omega
        simp [hlt, this]
      · have : prioOf b - prioOf a ≤ 0 := by omega
        simp [hlt, this]

theorem firstMax_mem {l : List MachineTransition} {b : MachineTransition}
    (h : firstMax l = some b) : b ∈ l := by
  induction l with
  | nil => simp [firstMax] at h
  | cons a l ih =>
    rw [firstMax] at h
    cases hl : firstMax l with
    | none => rw [hl] at h; simp at h; simp [h]
    | some c =>
      rw [hl] at h
      by_cases hlt : prioOf a < prioOf c
      · simp [hlt] at h; subst h; exact List.mem_cons_of_mem _ (ih hl)
      · simp [hlt] at h; simp [h]

theorem firstMax_eq_none {l : List MachineTransition} (h : firstMax l = none) :
    l = [] := by
  cases l with
  | nil => rfl
  | cons a l =>
    rw [firstMax] at h
    cases hl : firstMax l with
    | none => rw [hl] at h; simp at h
    | some c => rw [hl] at h; by_cases hlt : prioOf a < prioOf c <;> simp [hlt] at h

theorem firstMax_le {l : List MachineTransition} {b : MachineTransition}
    (h : firstMax l = some b) : ∀ u ∈ l, prioOf u ≤ prioOf b := by
  induction l generalizing b with
  | nil => simp
  | cons a l ih =>
    intro u hu
    rw [firstMax] at h
    cases hl : firstMax l with
    | none =>
      rw [hl] at h; simp at h
      rcases firstMax_eq_none hl with rfl
      simp at hu
      subst hu; subst h; exact le_refl _
    | some c =>
      rw [hl] at h
      rcases List.mem_cons.mp hu with hua | hul
      · subst hua
        by_cases hlt : prioOf u < prioOf c
        · simp [hlt] at h; subst h; omega
        · simp [hlt] at h; subst h; omega
      · have hc := ih hl u hul
        by_cases hlt : prioOf a < prioOf c
        · simp [hlt] at h; subst h; omega
        · simp [hlt] at h; subst h; omega

theorem firstMax_of_split (l₁ l₂ : List MachineTransition) (t : MachineTransition)
    (h₁ : ∀ u ∈ l₁, prioOf u < prioOf t) (h₂ : ∀ u ∈ l₂, prioOf u ≤ prioOf t) :
    firstMax (l₁ ++ t :: l₂) = some t := by
  induction l₁ with
  | nil =>
    simp only [List.nil_append, firstMax]
    cases hl : firstMax l₂ with
    | none => rfl
    | some b =>
      have hb : prioOf b ≤ prioOf t := h₂ b (firstMax_mem hl)
      have : ¬ prioOf t < prioOf b := by omega
      simp [this]
  | cons a l₁ ih =>
    have hrec := ih (fun u hu => h₁ u (List.mem_cons_of_mem _ hu))
    simp only [List.cons_append, firstMax, List.append_eq]
    rw [hrec]
    simp [h₁ a (List.mem_cons_self _ _)]

/-! ### Properties of the guarded candidate filter -/

theorem filterCandidates_trace_guard {V : Type} (cfg : MachineConfig V)
    (st : String) (ctx props : Ctx V) (ev : Event) :
    ∀ ts : List MachineTransition,
      ∀ e ∈ (filterCandidates cfg st ctx props ev ts).2, ∃ g, e = TraceEv.guardCall g := by
  intro ts
  induction ts with
  | nil => simp [filterCandidates]
  | cons t ts ih =>
    intro e he
    by_cases hm : transMatches st ev t
    · cases hg : t.guard with
      | none =>
        simp only [filterCandidates, hm, if_true, hg] at he
        exact ih e he
      | some g =>
        cases hG : cfg.guards g with
        | none => simp only [filterCandidates, hm, if_true, hg, hG] at he; simp at he
        | some h =>
          simp only [filterCandidates, hm, if_true, hg, hG, List.mem_cons] at he
          rcases he with rfl | he
          · exact ⟨g, rfl⟩
          · exact ih e he
    · simp only [filterCandidates, hm, if_false] at he
      exact ih e he

theorem filterCandidates_error_shape {V : Type} {cfg : MachineConfig V}
    {st : String} {ctx props : Ctx V} {ev : Event} :
    ∀ {ts : List MachineTransition} {e : String},
      (filterCandidates cfg st ctx props ev ts).1 = Except.error e →
      ∃ g t, e = guardNotFoundMsg g ∧ t ∈ ts ∧ transMatches st ev t = true ∧
        t.guard = some g ∧ cfg.guards g = none := by
  intro ts
  induction ts with
  | nil => intro e h; simp [filterCandidates] at h
  | cons t ts ih =>
    intro e h
    by_cases hm : transMatches st ev t
    · cases hg : t.guard with
      | none =>
        simp only [filterCandidates, hm, if_true, hg] at h
        have hr : (filterCandidates cfg st ctx props ev ts).1 = Except.error e := by
          cases hfc : (filterCandidates cfg st ctx props ev ts).1 <;> rw [hfc] at h <;>
            simp [Except.map] at h
          rw [h]
        rcases ih hr with ⟨g, t', rest⟩
        exact ⟨g, t', rest.1, List.mem_cons_of_mem _ rest.2.1, rest.2.2⟩
      | some g =>
        cases hG : cfg.guards g with
        | none =>
          simp only [filterCandidates, hm, if_true, hg, hG, Except.error.injEq] at h
          exact ⟨g, t, h.symm, List.mem_cons_self _ _, hm, hg, hG⟩
        | some hdl =>
          simp only [filterCandidates, hm, if_true, hg, hG] at h
          have hr : (filterCandidates cfg st ctx props ev ts).1 = Except.error e := by
            cases hfc : (filterCandidates cfg st ctx props ev ts).1 <;> rw [hfc] at h <;>
              simp [Except.map] at h
            rw [h]
          rcases ih hr with ⟨g', t', rest⟩
          exact ⟨g', t', rest.1, List.mem_cons_of_mem _ rest.2.1, rest.2.2⟩
    · simp only [filterCandidates, hm, if_false] at h
      rcases ih h with ⟨g, t', rest⟩
      exact ⟨g, t', rest.1, List.mem_cons_of_mem _ rest.2.1, rest.2.2⟩

theorem filterCandidates_error_of_missing {V : Type} {cfg : MachineConfig V}
    {st : String} {ctx props : Ctx V} {ev : Event} :
    ∀ {ts : List MachineTransition} {t : MachineTransition} {g : String},
      t ∈ ts → transMatches st ev t = true → t.guard = some g → cfg.guards g = none →
      ∃ e, (filterCandidates cfg st ctx props ev ts).1 = Except.error e := by
  intro ts
  induction ts with
  | nil => intro t g h; simp at h
  | cons t0 ts ih =>
    intro t g hmem hm hg hG
    rcases List.mem_cons.mp hmem with rfl | hmem'
    · refine ⟨guardNotFoundMsg g, ?_⟩
      simp only [filterCandidates, hm, if_true, hg, hG]
    · by_cases hm0 : transMatches st ev t0
      · rcases ih hmem' hm hg hG with ⟨e, he⟩
        cases hg0 : t0.guard with
        | none =>
          refine ⟨e, ?_⟩
          simp only [filterCandidates, hm0, if_true, hg0, he, Except.map]
        | some g0 =>
          cases hG0 : cfg.guards g0 with
          | none =>
            refine ⟨guardNotFoundMsg g0, ?_⟩
            simp only [filterCandidates, hm0, if_true, hg0, hG0]
          | some hdl0 =>
            refine ⟨e, ?_⟩
            simp only [filterCandidates, hm0, if_true, hg0, hG0, he, Except.map]
      · simp only [filterCandidates, hm0, if_false]
        exact ih hmem' hm hg hG

theorem filterCandidates_sublist {V : Type} {cfg : MachineConfig V}
    {st : String} {ctx props : Ctx V} {ev : Event} :
    ∀ {ts cands : List MachineTransition},
      (filterCandidates cfg st ctx props ev ts).1 = Except.ok cands →
      cands.Sublist ts := by
  intro ts
  induction ts with
  | nil =>
    intro cands h
    simp only [filterCandidates, Except.ok.injEq] at h
    rw [← h]
  | cons t ts ih =>
    intro cands h
    by_cases hm : transMatches st ev t
    · cases hg : t.guard with
      | none =>
        simp only [filterCandidates, hm, if_true, hg] at h
        cases hfc : (filterCandidates cfg st ctx props ev ts).1 with
        | error e => rw [hfc] at h; simp [Except.map] at h
        | ok l =>
          rw [hfc] at h
          simp [Except.map] at h
          rw [← h]
          exact List.Sublist.cons₂ t (ih hfc)
      | some g =>
        cases hG : cfg.guards g with
        | none => simp only [filterCandidates, hm, if_true, hg, hG] at h; simp at h
        | some hdl =>
          simp only [filterCandidates, hm, if_true, hg, hG] at h
          cases hfc : (filterCandidates cfg st ctx props ev ts).1 with
          | error e => rw [hfc] at h; simp [Except.map] at h
          | ok l =>
            rw [hfc] at h
            simp [Except.map] at h
            by_cases hk : hdl ⟨ctx, ev, props⟩
            · simp [hk] at h; rw [← h]; exact List.Sublist.cons₂ t (ih hfc)
            · simp [hk] at h; rw [← h]; exact List.Sublist.cons t (ih hfc)
    · simp only [filterCandidates, hm, if_false] at h
      exact List.Sublist.cons t (ih h)

theorem filterCandidates_not_mem {V : Type} {cfg : MachineConfig V}
    {st : String} {ctx props : Ctx V} {ev : Event}
    {g : String} {hdl : Params V → Bool} {t : MachineTransition}
    (hg : t.guard = some g) (hG : cfg.guards g = some hdl)
    (hfalse : hdl ⟨ctx, ev, props⟩ = false) :
    ∀ {ts cands : List MachineTransition},
      (filterCandidates cfg st ctx props ev ts).1 = Except.ok cands →
      t ∉ cands := by
  intro ts
  induction ts with
  | nil =>
    intro cands h
    simp only [filterCandidates, Except.ok.injEq] at h
    rw [← h]
    exact List.not_mem_nil t
  | cons t0 ts ih =>
    intro cands h
    by_cases hm : transMatches st ev t0
    · cases hg0 : t0.guard with
      | none =>
        simp only [filterCandidates, hm, if_true, hg0] at h
        cases hfc : (filterCandidates cfg st ctx props ev ts).1 with
        | error e => rw [hfc] at h; simp [Except.map] at h
        | ok l =>
          rw [hfc] at h
          simp [Except.map] at h
          rw [← h]
          intro hmem
          rcases List.mem_cons.mp hmem with rfl | hmem'
          · rw [hg] at hg0; cases hg0
          · exact ih hfc hmem'
      | some g0 =>
        cases hG0 : cfg.guards g0 with
        | none => simp only [filterCandidates, hm, if_true, hg0, hG0] at h; simp at h
        | some hdl0 =>
          simp only [filterCandidates, hm, if_true, hg0, hG0] at h
          cases hfc : (filterCandidates cfg st ctx props ev ts).1 with
          | error e => rw [hfc] at h; simp [Except.map] at h
          | ok l =>
            rw [hfc] at h
            simp [Except.map] at h
            by_cases hk : hdl0 ⟨ctx, ev, props⟩
            · simp [hk] at h
              rw [← h]
              intro hmem
              rcases List.mem_cons.mp hmem with rfl | hmem'
              · rw [hg] at hg0
                cases hg0
                rw [hG] at hG0
                cases hG0
                rw [hfalse] at hk
                exact Bool.false_ne_true hk
              · exact ih hfc hmem'
            · simp [hk] at h
              rw [← h]
              exact ih hfc
    · simp only [filterCandidates, hm, if_false] at h
      exact ih h

/-! ### Basic lemmas about `send`, `dispatch` and `notifyList` -/

theorem machine_set_processing_eq {V : Type} {m : Machine V} {b : Bool}
    (h : m.processing = b) : { m with processing := b } = m := by
  cases m
  simp only at h
  simp [h]

theorem send_processing {V : Type} (fuel : Nat) (m : Machine V) (ev : Event)
    (h : m.processing = true) : send fuel m ev = (m, none, []) := by
  cases fuel with
  | zero => rfl
  | succ n => cases hr : m.running <;> simp [send, h, hr]

theorem send_not_running {V : Type} (fuel : Nat) (m : Machine V) (ev : Event)
    (h : m.running = false) : send (fuel + 1) m ev = (m, none, []) := by
  simp [send, h]

theorem send_succ_run {V : Type} (fuel : Nat) (m : Machine V) (ev : Event)
    (hrun : m.running = true) (hproc : m.processing = false) :
    send (fuel + 1) m ev =
      ({ (dispatch (send fuel) { m with processing := true } ev).1 with processing := false },
       (dispatch (send fuel) { m with processing := true } ev).2.1,
       (dispatch (send fuel) { m with processing := true } ev).2.2) := by
  simp [send, hrun, hproc]

theorem candSet_latch {V : Type} (m : Machine V) (ev : Event) (b : Bool) :
    candSet { m with processing := b } ev = candSet m ev := rfl

theorem dispatch_filter_error {V : Type}
    (sendFn : Machine V → Event → Machine V × Option String × List (TraceEv V))
    {m : Machine V} {ev : Event} {e : String} {gtr : List (TraceEv V)}
    (hF : candSet m ev = (Except.error e, gtr)) :
    dispatch sendFn m ev = (m, some e, gtr) := by
  simp [dispatch, hF]

theorem dispatch_no_winner {V : Type}
    (sendFn : Machine V → Event → Machine V × Option String × List (TraceEv V))
    {m : Machine V} {ev : Event} {cands : List MachineTransition} {gtr : List (TraceEv V)}
    (hF : candSet m ev = (Except.ok cands, gtr))
    (hW : selectWinner cands = none) :
    dispatch sendFn m ev = (m, none, gtr) := by
  simp [dispatch, hF, hW]

theorem dispatch_no_action {V : Type}
    (sendFn : Machine V → Event → Machine V × Option String × List (TraceEv V))
    {m : Machine V} {ev : Event} {cands : List MachineTransition} {gtr : List (TraceEv V)}
    {t : MachineTransition}
    (hF : candSet m ev = (Except.ok cands, gtr))
    (hW : selectWinner cands = some t)
    (ha : t.action = none) :
    dispatch sendFn m ev =
      ({ m with state := t.toState }, none,
       gtr ++ notify { m with state := t.toState }) := by
  simp [dispatch, hF, hW, ha]

theorem dispatch_missing_action {V : Type}
    (sendFn : Machine V → Event → Machine V × Option String × List (TraceEv V))
    {m : Machine V} {ev : Event} {cands : List MachineTransition} {gtr : List (TraceEv V)}
    {t : MachineTransition} {a : String}
    (hF : candSet m ev = (Except.ok cands, gtr))
    (hW : selectWinner cands = some t)
    (ha : t.action = some a)
    (hA : m.config.actions a = none) :
    dispatch sendFn m ev =
      ({ m with state := t.toState }, some (actionNotFoundMsg a), gtr) := by
  simp [dispatch, hF, hW, ha, hA]

theorem dispatch_pure_some {V : Type}
    (sendFn : Machine V → Event → Machine V × Option String × List (TraceEv V))
    {m : Machine V} {ev : Event} {cands : List MachineTransition} {gtr : List (TraceEv V)}
    {t : MachineTransition} {a : String} {f : Params V → Option (Ctx V)} {r : Ctx V}
    (hF : candSet m ev = (Except.ok cands, gtr))
    (hW : selectWinner cands = some t)
    (ha : t.action = some a)
    (hA : m.config.actions a = some (ActionBody.pure f))
    (hf : f ⟨m.context, ev, m.props⟩ = some r) :
    dispatch sendFn m ev =
      ({ m with state := t.toState, context := jsMerge m.context r }, none,
       gtr ++ [TraceEv.actionCall a] ++
         notify { m with state := t.toState, context := jsMerge m.context r }) := by
  simp [dispatch, hF, hW, ha, hA, getContext, getProps, hf]

theorem dispatch_pure_none {V : Type}
    (sendFn : Machine V → Event → Machine V × Option String × List (TraceEv V))
    {m : Machine V} {ev : Event} {cands : List MachineTransition} {gtr : List (TraceEv V)}
    {t : MachineTransition} {a : String} {f : Params V → Option (Ctx V)}
    (hF : candSet m ev = (Except.ok cands, gtr))
    (hW : selectWinner cands = some t)
    (ha : t.action = some a)
    (hA : m.config.actions a = some (ActionBody.pure f))
    (hf : f ⟨m.context, ev, m.props⟩ = none) :
    dispatch sendFn m ev =
      ({ m with state := t.toState }, none,
       gtr ++ [TraceEv.actionCall a] ++ notify { m with state := t.toState }) := by
  simp [dispatch, hF, hW, ha, hA, getContext, getProps, hf]

theorem dispatch_sendThen_some {V : Type}
    (sendFn : Machine V → Event → Machine V × Option String × List (TraceEv V))
    {m : Machine V} {ev ev2 : Event} {cands : List MachineTransition} {gtr : List (TraceEv V)}
    {t : MachineTransition} {a : String} {f : Params V → Option (Ctx V)} {r : Ctx V}
    (hF : candSet m ev = (Except.ok cands, gtr))
    (hW : selectWinner cands = some t)
    (ha : t.action = some a)
    (hA : m.config.actions a = some (ActionBody.sendThen ev2 f))
    (hs : sendFn { m with state := t.toState } ev2 = ({ m with state := t.toState }, none, []))
    (hf : f ⟨m.context, ev, m.props⟩ = some r) :
    dispatch sendFn m ev =
      ({ m with state := t.toState, context := jsMerge m.context r }, none,
       gtr ++ [TraceEv.actionCall a] ++
         notify { m with state := t.toState, context := jsMerge m.context r }) := by
  simp [dispatch, hF, hW, ha, hA, hs, getContext, getProps, hf]

theorem dispatch_sendThen_none {V : Type}
    (sendFn : Machine V → Event → Machine V × Option String × List (TraceEv V))
    {m : Machine V} {ev ev2 : Event} {cands : List MachineTransition} {gtr : List (TraceEv V)}
    {t : MachineTransition} {a : String} {f : Params V → Option (Ctx V)}
    (hF : candSet m ev = (Except.ok cands, gtr))
    (hW : selectWinner cands = some t)
    (ha : t.action = some a)
    (hA : m.config.actions a = some (ActionBody.sendThen ev2 f))
    (hs : sendFn { m with state := t.toState } ev2 = ({ m with state := t.toState }, none, []))
    (hf : f ⟨m.context, ev, m.props⟩ = none) :
    dispatch sendFn m ev =
      ({ m with state := t.toState }, none,
       gtr ++ [TraceEv.actionCall a] ++ notify { m with state := t.toState }) := by
  simp [dispatch, hF, hW, ha, hA, hs, getContext, getProps, hf]

theorem notifyList_calls {V : Type} (ls : List (Listener V)) (s : String) (c p : Ctx V) :
    (notifyList ls s c p).filterMap callArgs = ls.map (fun l => (l.id, s, c, p)) := by
  induction ls with
  | nil => rfl
  | cons l rest ih =>
    by_cases hf : l.fails s c p <;>
      simp [notifyList, hf, callArgs, List.filterMap_append, ih]

theorem notifyList_error_mem {V : Type} {ls : List (Listener V)} {l : Listener V}
    (hmem : l ∈ ls) (s : String) (c p : Ctx V)
    (hf : l.fails s c p = true) :
    TraceEv.listenerError l.id ∈ notifyList ls s c p := by
  induction ls with
  | nil => simp at hmem
  | cons l0 rest ih =>
    rcases List.mem_cons.mp hmem with rfl | hmem'
    · simp [notifyList, hf]
    · refine List.mem_append_right _ ?_
      · exact ih hmem'

theorem notifyList_only_listener {V : Type} (ls : List (Listener V)) (s : String)
    (c p : Ctx V) :
    ∀ e ∈ notifyList ls s c p, isGuardCallEv e = false ∧ isActionCallEv e = false := by
  induction ls with
  | nil => simp [notifyList]
  | cons l rest ih =>
    intro e he
    by_cases hf : l.fails s c p
    · rw [notifyList] at he
      simp only [hf, if_true] at he
      rcases List.mem_append.mp he with h1 | h1
      · simp only [List.mem_cons, List.not_mem_nil, or_false] at h1
        rcases h1 with h1 | h1 <;> subst h1 <;> exact ⟨rfl, rfl⟩
      · exact ih e h1
    · rw [notifyList] at he
      rw [if_neg hf] at he
      rcases List.mem_append.mp he with h1 | h1
      · simp only [List.mem_cons, List.not_mem_nil, or_false] at h1
        subst h1
        exact ⟨rfl, rfl⟩
      · exact ih e h1

theorem notifyList_call_id {V : Type} {ls : List (Listener V)} {s : String} {c p : Ctx V}
    {i : Nat} {s2 : String} {c2 p2 : Ctx V}
    (h : TraceEv.listenerCall i s2 c2 p2 ∈ notifyList ls s c p) :
    i ∈ ls.map Listener.id ∧ s2 = s ∧ c2 = c ∧ p2 = p := by
  induction ls with
  | nil => simp [notifyList] at h
  | cons l rest ih =>
    by_cases hf : l.fails s c p
    · rw [notifyList] at h
      simp only [hf, if_true] at h
      rcases List.mem_append.mp h with h1 | h1
      · simp only [List.mem_cons, List.not_mem_nil, or_false] at h1
        rcases h1 with h1 | h1
        · injection h1 with hi hs hc hp
          exact ⟨by simp [hi], hs, hc, hp⟩
        · cases h1
      · rcases ih h1 with ⟨hi, hs, hc, hp⟩
        exact ⟨by simp [hi], hs, hc, hp⟩
    · rw [notifyList] at h
      rw [if_neg hf] at h
      rcases List.mem_append.mp h with h1 | h1
      · simp only [List.mem_cons, List.not_mem_nil, or_false] at h1
        injection h1 with hi hs hc hp
        exact ⟨by simp [hi], hs, hc, hp⟩
      · rcases ih h1 with ⟨hi, hs, hc, hp⟩
        exact ⟨by simp [hi], hs, hc, hp⟩

theorem dispatch_state_winner {V : Type}
    (sendFn : Machine V → Event → Machine V × Option String × List (TraceEv V))
    {m : Machine V} {ev : Event} {cands : List MachineTransition} {gtr : List (TraceEv V)}
    {t : MachineTransition}
    (hs : ∀ m2 ev2, m2.processing = true → sendFn m2 ev2 = (m2, none, []))
    (hproc : m.processing = true)
    (hF : candSet m ev = (Except.ok cands, gtr))
    (hW : selectWinner cands = some t) :
    (dispatch sendFn m ev).1.state = t.toState := by
  simp only [dispatch, hF, hW]
  cases ha : t.action with
  | none => simp [ha]
  | some a =>
    cases hA : m.config.actions a with
    | none => simp [ha, hA]
    | some body =>
      cases body with
      | pure f =>
        cases hf : f ⟨m.context, ev, m.props⟩ <;>
          simp [ha, hA, getContext, getProps, hf]
      | sendThen ev2 f =>
        have hinner := hs { m with state := t.toState } ev2 hproc
        cases hf : f ⟨m.context, ev, m.props⟩ <;>
          simp [ha, hA, hinner, getContext, getProps, hf]

/-- C1: for every running machine and every `send(event)` call where at least
one transition survives candidate filtering, the applied transition is the
candidate with the highest priority (priority defaulting to 0 when absent,
via `prioOf`); among candidates of equal highest priority the one appearing
earliest in the original transitions list wins (the surviving candidates are
an order-preserving sublist of the transition table), and `currentState`
becomes that winner's `to` value. -/
theorem send_applies_highest_priority_earliest {V : Type} (m : Machine V) (ev : Event)
    (fuel : Nat) (cands l₁ l₂ : List MachineTransition) (t : MachineTransition)
    (gtr : List (TraceEv V))
    (hrun : m.running = true) (hproc : m.processing = false)
    (hF : candSet m ev = (Except.ok cands, gtr))
    (hsplit : cands = l₁ ++ t :: l₂)
    (hlt : ∀ u ∈ l₁, prioOf u < prioOf t)
    (hle : ∀ u ∈ l₂, prioOf u ≤ prioOf t) :
    selectWinner cands = some t ∧
    (send (fuel + 1) m ev).1.state = t.toState ∧
    cands.Sublist m.config.transitions := by
  have hW : selectWinner cands = some t := by
    rw [selectWinner_eq_firstMax, hsplit]
    exact firstMax_of_split l₁ l₂ t hlt hle
  have hFc : (filterCandidates m.config m.state m.context m.props ev
      m.config.transitions).1 = Except.ok cands := by
    show (candSet m ev).1 = Except.ok cands
    rw [hF]
  refine ⟨hW, ?_, filterCandidates_sublist hFc⟩
  rw [send_succ_run fuel m ev hrun hproc]
  show (dispatch (send fuel) { m with processing := true } ev).1.state = t.toState
  have hF1 : candSet { m with processing := true } ev = (Except.ok cands, gtr) := by
    rw [candSet_latch]; exact hF
  exact dispatch_state_winner (send fuel)
    (fun m2 ev2 h => send_processing fuel m2 ev2 h) rfl hF1 hW

/-- Witness for C1 at the priority test machine: transitions with priorities
1 and 10 both match, the priority-10 one wins and the state becomes its `to`
value `"green"`. -/
theorem send_applies_highest_priority_earliest_witness :
    selectWinner exCfgA.transitions =
        some ⟨"*", "TOGGLE", "green", none, none, some 10⟩ ∧
    (send 1 exA ⟨"TOGGLE"⟩).1.state = "green" := by
  have h := send_applies_highest_priority_earliest exA ⟨"TOGGLE"⟩ 0
    exCfgA.transitions
    [⟨"green", "TOGGLE", "red", none, none, some 1⟩] []
    ⟨"*", "TOGGLE", "green", none, none, some 10⟩
    [] rfl rfl rfl rfl (by decide) (by decide)
  exact ⟨h.1, h.2.1⟩

/-- C4: a `send` while not running, or while a dispatch is in progress, or
whose candidate set is empty after guard filtering, returns normally leaving
state, context and props unchanged and notifying no listener; a `send`
invoked synchronously from inside an action handler (modelled by a
`sendThen` action) is dropped, while the outer dispatch completes normally:
it ends in the outer winner's `to` state with the outer action's context
changes applied.  The `processing` latch hence keeps at most one dispatch in
flight. -/
theorem send_noop_and_reentrancy {V : Type} (m : Machine V) (ev : Event) (fuel : Nat) :
    (m.running = false → send (fuel + 1) m ev = (m, none, [])) ∧
    (m.processing = true → send (fuel + 1) m ev = (m, none, [])) ∧
    (∀ gtr : List (TraceEv V), m.running = true → m.processing = false →
      candSet m ev = (Except.ok [], gtr) →
      (send (fuel + 1) m ev).1 = m ∧ (send (fuel + 1) m ev).2.1 = none ∧
      ∀ e ∈ (send (fuel + 1) m ev).2.2, isListenerCallEv e = false) ∧
    (∀ (cands : List MachineTransition) (gtr : List (TraceEv V))
        (t : MachineTransition) (a : String) (ev2 : Event)
        (f : Params V → Option (Ctx V)) (r : Ctx V),
      m.running = true → m.processing = false →
      candSet m ev = (Except.ok cands, gtr) →
      selectWinner cands = some t →
      t.action = some a →
      m.config.actions a = some (ActionBody.sendThen ev2 f) →
      f ⟨m.context, ev, m.props⟩ = some r →
      (send (fuel + 1) m ev).1.state = t.toState ∧
      (send (fuel + 1) m ev).1.context = jsMerge m.context r ∧
      (send (fuel + 1) m ev).2.1 = none) := by
  refine ⟨fun h => send_not_running fuel m ev h,
          fun h => send_processing (fuel + 1) m ev h, ?_, ?_⟩
  · intro gtr hrun hproc hF
    have hF1 : candSet { m with processing := true } ev = (Except.ok [], gtr) := by
      rw [candSet_latch]; exact hF
    have hd := dispatch_no_winner (send fuel) hF1 rfl
    rw [send_succ_run fuel m ev hrun hproc, hd]
    refine ⟨machine_set_processing_eq hproc, rfl, ?_⟩
    intro e he
    have hg : e ∈ (candSet m ev).2 := by rw [hF]; exact he
    rcases filterCandidates_trace_guard m.config m.state m.context m.props ev
      m.config.transitions e hg with ⟨g, rfl⟩
    rfl
  · intro cands gtr t a ev2 f r hrun hproc hF hW ha hA hf
    have hF1 : candSet { m with processing := true } ev = (Except.ok cands, gtr) := by
      rw [candSet_latch]; exact hF
    have hs : send fuel { { m with processing := true } with state := t.toState } ev2 =
        ({ { m with processing := true } with state := t.toState }, none, []) :=
      send_processing fuel _ ev2 rfl
    have hd := dispatch_sendThen_some (send fuel) hF1 hW ha hA hs hf
    rw [send_succ_run fuel m ev hrun hproc, hd]
    exact ⟨rfl, rfl, rfl⟩

/-- Witness for C4: before `start` a send is a no-op on the re-entrancy test
machine; once running, the outer `TOGGLE` dispatch (whose `increment` action
sends `RESET` re-entrantly) ends in state `"red"` with context count 1 — the
inner send was dropped. -/
theorem send_noop_and_reentrancy_witness :
    send 1 (createMachine exCfgD) ⟨"TOGGLE"⟩ = (createMachine exCfgD, none, []) ∧
    (send 2 exD ⟨"TOGGLE"⟩).1.state = "red" ∧
    (send 2 exD ⟨"TOGGLE"⟩).1.context = [("count", 1)] ∧
    (send 2 exD ⟨"TOGGLE"⟩).2.1 = none := by
  have h1 := (send_noop_and_reentrancy (createMachine exCfgD) ⟨"TOGGLE"⟩ 0).1 rfl
  have h4 := (send_noop_and_reentrancy exD ⟨"TOGGLE"⟩ 1).2.2.2
    [⟨"green", "TOGGLE", "red", some "increment", none, none⟩] []
    ⟨"green", "TOGGLE", "red", some "increment", none, none⟩ "increment" ⟨"RESET"⟩
    (fun p => some [("count", (lookupKey p.context "count").getD 0 + 1)])
    [("count", 1)] rfl rfl rfl rfl rfl rfl rfl
  exact ⟨h1, h4.1, by rw [h4.2.1]; rfl, h4.2.2⟩

/-- C2: when the winning transition names an action absent from the actions
mapping, `send` raises an error whose message contains the action name, and
only after `currentState` was already set to the winner's `to`: the state
change is not rolled back, context and props are unchanged, no listener is
notified, yet the `processing` latch is reset (and `running` kept), so a
subsequent send on the same instance reaches its dispatch normally. -/
theorem send_missing_action_commits_state {V : Type} (m : Machine V) (ev : Event)
    (fuel : Nat) (cands : List MachineTransition) (gtr : List (TraceEv V))
    (t : MachineTransition) (a : String)
    (hrun : m.running = true) (hproc : m.processing = false)
    (hF : candSet m ev = (Except.ok cands, gtr))
    (hW : selectWinner cands = some t)
    (ha : t.action = some a)
    (hA : m.config.actions a = none) :
    (send (fuel + 1) m ev).2.1 = some (actionNotFoundMsg a) ∧
    (∃ pre post, actionNotFoundMsg a = pre ++ a ++ post) ∧
    (send (fuel + 1) m ev).1.state = t.toState ∧
    (send (fuel + 1) m ev).1.context = m.context ∧
    (send (fuel + 1) m ev).1.props = m.props ∧
    (send (fuel + 1) m ev).1.processing = false ∧
    (send (fuel + 1) m ev).1.running = true ∧
    (send (fuel + 1) m ev).1.listeners = m.listeners ∧
    (∀ e ∈ (send (fuel + 1) m ev).2.2, isListenerCallEv e = false) := by
  have hF1 : candSet { m with processing := true } ev = (Except.ok cands, gtr) := by
    rw [candSet_latch]; exact hF
  have hd := dispatch_missing_action (send fuel) hF1 hW ha hA
  rw [send_succ_run fuel m ev hrun hproc, hd]
  refine ⟨rfl, ⟨"Action \"", "\" not found.", rfl⟩, rfl, rfl, rfl, rfl, hrun, rfl, ?_⟩
  intro e he
  have hg : e ∈ (candSet m ev).2 := by rw [hF]; exact he
  rcases filterCandidates_trace_guard m.config m.state m.context m.props ev
    m.config.transitions e hg with ⟨g, rfl⟩
  rfl

/-- Witness for C2 at the missing-action machine: the `TOGGLE` dispatch
throws `Action "increment" not found.` with the state already committed to
`"red"` and the latch reset. -/
theorem send_missing_action_commits_state_witness :
    (send 1 exB ⟨"TOGGLE"⟩).2.1 = some "Action \"increment\" not found." ∧
    (send 1 exB ⟨"TOGGLE"⟩).1.state = "red" ∧
    (send 1 exB ⟨"TOGGLE"⟩).1.context = exB.context ∧
    (send 1 exB ⟨"TOGGLE"⟩).1.processing = false := by
  have h := send_missing_action_commits_state exB ⟨"TOGGLE"⟩ 0
    [⟨"green", "TOGGLE", "red", some "increment", none, none⟩] []
    ⟨"green", "TOGGLE", "red", some "increment", none, none⟩ "increment"
    rfl rfl rfl rfl rfl rfl
  exact ⟨h.1, h.2.2.1, h.2.2.2.1, h.2.2.2.2.2.1⟩

/-- C3: when some (from, event)-matching candidate names a guard absent from
the guards mapping, the whole dispatch is aborted with an error whose message
contains a missing guard name, and the machine (state, context, props,
listeners) is left exactly unchanged with no listener notified: the error
precedes any mutation. -/
theorem send_missing_guard_aborts {V : Type} (m : Machine V) (ev : Event)
    (fuel : Nat) (t : MachineTransition) (g : String)
    (hrun : m.running = true) (hproc : m.processing = false)
    (hmem : t ∈ m.config.transitions)
    (hm : transMatches m.state ev t = true)
    (hg : t.guard = some g)
    (hG : m.config.guards g = none) :
    (∃ g2 : String,
      m.config.guards g2 = none ∧
      (∃ t2 ∈ m.config.transitions, transMatches m.state ev t2 = true ∧ t2.guard = some g2) ∧
      (send (fuel + 1) m ev).2.1 = some (guardNotFoundMsg g2) ∧
      (∃ pre post, guardNotFoundMsg g2 = pre ++ g2 ++ post)) ∧
    (send (fuel + 1) m ev).1 = m ∧
    (∀ e ∈ (send (fuel + 1) m ev).2.2, isListenerCallEv e = false) := by
  obtain ⟨e, he⟩ := @filterCandidates_error_of_missing V m.config m.state m.context
    m.props ev m.config.transitions t g hmem hm hg hG
  have he2 : (candSet m ev).1 = Except.error e := he
  have hF : candSet m ev = (Except.error e, (candSet m ev).2) := by
    conv_lhs => rw [show candSet m ev = ((candSet m ev).1, (candSet m ev).2) from rfl]
    rw [he2]
  have hF1 : candSet { m with processing := true } ev =
      (Except.error e, (candSet m ev).2) := by
    rw [candSet_latch]; exact hF
  have hd := dispatch_filter_error (send fuel) hF1
  obtain ⟨g2, t2, hmsg, hmem2, hm2, hg2, hG2⟩ := filterCandidates_error_shape he
  rw [send_succ_run fuel m ev hrun hproc, hd]
  refine ⟨⟨g2, hG2, ⟨t2, hmem2, hm2, hg2⟩, by rw [hmsg],
    ⟨"Guard \"", "\" not found.", rfl⟩⟩, machine_set_processing_eq hproc, ?_⟩
  intro e2 he2
  rcases filterCandidates_trace_guard m.config m.state m.context m.props ev
    m.config.transitions e2 he2 with ⟨g3, rfl⟩
  rfl

/-- Witness for C3 at the missing-guard machine: the `TOGGLE` dispatch
throws `Guard "canIncrement" not found.` and the machine is unchanged. -/
theorem send_missing_guard_aborts_witness :
    (send 1 exC ⟨"TOGGLE"⟩).1 = exC ∧
    (send 1 exC ⟨"TOGGLE"⟩).2.1 = some "Guard \"canIncrement\" not found." := by
  have h := send_missing_guard_aborts exC ⟨"TOGGLE"⟩ 0
    ⟨"green", "TOGGLE", "red", none, some "canIncrement", none⟩ "canIncrement"
    rfl rfl (by decide) rfl rfl rfl
  refine ⟨h.2.1, ?_⟩
  obtain ⟨g2, hG2, ⟨t2, hmem2, hm2, hg2⟩, herr, hsub⟩ := h.1
  have : g2 = "canIncrement" := by
    revert hg2
    fin_cases hmem2
    intro hg2
    simp at hg2
    exact hg2.symm
  rw [herr, this]
  rfl

theorem notify_only_listener {V : Type} (m : Machine V) :
    ∀ e ∈ notify m, isGuardCallEv e = false ∧ isActionCallEv e = false :=
  notifyList_only_listener m.listeners m.state (getContext m) (getProps m)

theorem dispatch_action_call {V : Type}
    (sendFn : Machine V → Event → Machine V × Option String × List (TraceEv V))
    {m : Machine V} {ev : Event} {name : String}
    (hs : ∀ m2 ev2, m2.processing = true → sendFn m2 ev2 = (m2, none, []))
    (hproc : m.processing = true)
    (hmem : TraceEv.actionCall name ∈ (dispatch sendFn m ev).2.2) :
    ∃ cands gtr t, candSet m ev = (Except.ok cands, gtr) ∧
      selectWinner cands = some t ∧ t.action = some name := by
  have hgtr : ∀ e ∈ (candSet m ev).2, ∃ g, e = TraceEv.guardCall g :=
    filterCandidates_trace_guard m.config m.state m.context m.props ev m.config.transitions
  rcases hcs : candSet m ev with ⟨res, gtr⟩
  have hgtr2 : ∀ e ∈ gtr, ∃ g, e = TraceEv.guardCall g := by
    intro e he
    apply hgtr
    rw [hcs]
    exact he
  cases res with
  | error e =>
    rw [dispatch_filter_error sendFn hcs] at hmem
    rcases hgtr2 _ hmem with ⟨g, hgc⟩
    simp at hgc
  | ok cands =>
    cases hW : selectWinner cands with
    | none =>
      rw [dispatch_no_winner sendFn hcs hW] at hmem
      rcases hgtr2 _ hmem with ⟨g, hgc⟩
      simp at hgc
    | some t =>
      refine ⟨cands, gtr, t, rfl, hW, ?_⟩
      cases ha : t.action with
      | none =>
        rw [dispatch_no_action sendFn hcs hW ha] at hmem
        rcases List.mem_append.mp hmem with h1 | h1
        · rcases hgtr2 _ h1 with ⟨g, hgc⟩
          simp at hgc
        · have h2 := (notify_only_listener _ _ h1).2
          simp [isActionCallEv] at h2
      | some a =>
        cases hA : m.config.actions a with
        | none =>
          rw [dispatch_missing_action sendFn hcs hW ha hA] at hmem
          rcases hgtr2 _ hmem with ⟨g, hgc⟩
          simp at hgc
        | some body =>
          cases body with
          | pure f =>
            cases hf : f ⟨m.context, ev, m.props⟩ with
            | some r =>
              rw [dispatch_pure_some sendFn hcs hW ha hA hf] at hmem
              rcases List.mem_append.mp hmem with h1 | h1
              · rcases List.mem_append.mp h1 with h2 | h2
                · rcases hgtr2 _ h2 with ⟨g, hgc⟩
                  simp at hgc
                · simp only [List.mem_cons, List.not_mem_nil, or_false] at h2
                  injection h2 with h3
                  rw [h3]
              · have h2 := (notify_only_listener _ _ h1).2
                simp [isActionCallEv] at h2
            | none =>
              rw [dispatch_pure_none sendFn hcs hW ha hA hf] at hmem
              rcases List.mem_append.mp hmem with h1 | h1
              · rcases List.mem_append.mp h1 with h2 | h2
                · rcases hgtr2 _ h2 with ⟨g, hgc⟩
                  simp at hgc
                · simp only [List.mem_cons, List.not_mem_nil, or_false] at h2
                  injection h2 with h3
                  rw [h3]
              · have h2 := (notify_only_listener _ _ h1).2
                simp [isActionCallEv] at h2
          | sendThen ev2 f =>
            have hsi := hs { m with state := t.toState } ev2 hproc
            cases hf : f ⟨m.context, ev, m.props⟩ with
            | some r =>
              rw [dispatch_sendThen_some sendFn hcs hW ha hA hsi hf] at hmem
              rcases List.mem_append.mp hmem with h1 | h1
              · rcases List.mem_append.mp h1 with h2 | h2
                · rcases hgtr2 _ h2 with ⟨g, hgc⟩
                  simp at hgc
                · simp only [List.mem_cons, List.not_mem_nil, or_false] at h2
                  injection h2 with h3
                  rw [h3]
              · have h2 := (notify_only_listener _ _ h1).2
                simp [isActionCallEv] at h2
            | none =>
              rw [dispatch_sendThen_none sendFn hcs hW ha hA hsi hf] at hmem
              rcases List.mem_append.mp hmem with h1 | h1
              · rcases List.mem_append.mp h1 with h2 | h2
                · rcases hgtr2 _ h2 with ⟨g, hgc⟩
                  simp at hgc
                · simp only [List.mem_cons, List.not_mem_nil, or_false] at h2
                  injection h2 with h3
                  rw [h3]
              · have h2 := (notify_only_listener _ _ h1).2
                simp [isActionCallEv] at h2

theorem dispatch_trace_shape {V : Type}
    (sendFn : Machine V → Event → Machine V × Option String × List (TraceEv V))
    {m : Machine V} {ev : Event}
    (hs : ∀ m2 ev2, m2.processing = true → sendFn m2 ev2 = (m2, none, []))
    (hproc : m.processing = true) :
    ∃ pre post, (dispatch sendFn m ev).2.2 = pre ++ post ∧
      (∀ e ∈ pre, isGuardCallEv e = true) ∧
      (∀ e ∈ post, isGuardCallEv e = false) := by
  have hgtr : ∀ e ∈ (candSet m ev).2, ∃ g, e = TraceEv.guardCall g :=
    filterCandidates_trace_guard m.config m.state m.context m.props ev m.config.transitions
  rcases hcs : candSet m ev with ⟨res, gtr⟩
  have hgtr2 : ∀ e ∈ gtr, isGuardCallEv e = true := by
    intro e he
    have he2 : e ∈ (candSet m ev).2 := by rw [hcs]; exact he
    rcases hgtr e he2 with ⟨g, rfl⟩
    rfl
  have hpost : ∀ (a : String) (m3 : Machine V),
      ∀ e ∈ [TraceEv.actionCall a] ++ notify m3, isGuardCallEv e = false := by
    intro a m3 e he
    rcases List.mem_append.mp he with h1 | h1
    · simp only [List.mem_cons, List.not_mem_nil, or_false] at h1
      rw [h1]
      rfl
    · exact (notify_only_listener m3 e h1).1
  cases res with
  | error e =>
    exact ⟨gtr, [], by rw [dispatch_filter_error sendFn hcs]; simp, hgtr2, by simp⟩
  | ok cands =>
    cases hW : selectWinner cands with
    | none =>
      exact ⟨gtr, [], by rw [dispatch_no_winner sendFn hcs hW]; simp, hgtr2, by simp⟩
    | some t =>
      cases ha : t.action with
      | none =>
        refine ⟨gtr, notify { m with state := t.toState }, ?_, hgtr2, ?_⟩
        · rw [dispatch_no_action sendFn hcs hW ha]
        · intro e he
          exact (notify_only_listener _ e he).1
      | some a =>
        cases hA : m.config.actions a with
        | none =>
          exact ⟨gtr, [], by rw [dispatch_missing_action sendFn hcs hW ha hA]; simp,
            hgtr2, by simp⟩
        | some body =>
          cases body with
          | pure f =>
            cases hf : f ⟨m.context, ev, m.props⟩ with
            | some r =>
              refine ⟨gtr, [TraceEv.actionCall a] ++
                notify { m with state := t.toState, context := jsMerge m.context r },
                ?_, hgtr2, hpost a _⟩
              rw [dispatch_pure_some sendFn hcs hW ha hA hf]
              simp
            | none =>
              refine ⟨gtr, [TraceEv.actionCall a] ++ notify { m with state := t.toState },
                ?_, hgtr2, hpost a _⟩
              rw [dispatch_pure_none sendFn hcs hW ha hA hf]
              simp
          | sendThen ev2 f =>
            have hsi := hs { m with state := t.toState } ev2 hproc
            cases hf : f ⟨m.context, ev, m.props⟩ with
            | some r =>
              refine ⟨gtr, [TraceEv.actionCall a] ++
                notify { m with state := t.toState, context := jsMerge m.context r },
                ?_, hgtr2, hpost a _⟩
              rw [dispatch_sendThen_some sendFn hcs hW ha hA hsi hf]
              simp
            | none =>
              refine ⟨gtr, [TraceEv.actionCall a] ++ notify { m with state := t.toState },
                ?_, hgtr2, hpost a _⟩
              rw [dispatch_sendThen_none sendFn hcs hW ha hA hsi hf]
              simp

/-- C5: a candidate whose guard returns false is eliminated and its paired
action is never invoked (the only action ever invoked in a dispatch is the
winner's); guard evaluation always precedes action execution (the trace is a
block of guard calls followed by a guard-free block); if every matching
candidate is eliminated the machine is unchanged, and if a candidate
survives filtering, the selected winner is a member of the surviving set and
its `to` becomes the state. -/
theorem guard_false_eliminates {V : Type} (m : Machine V) (ev : Event) (fuel : Nat) :
    (∀ (t : MachineTransition) (g : String) (h : Params V → Bool)
        (cands : List MachineTransition) (gtr : List (TraceEv V)),
      t.guard = some g → m.config.guards g = some h →
      h ⟨m.context, ev, m.props⟩ = false →
      candSet m ev = (Except.ok cands, gtr) → t ∉ cands) ∧
    (∀ name : String, TraceEv.actionCall name ∈ (send (fuel + 1) m ev).2.2 →
      ∃ cands gtr t, candSet m ev = (Except.ok cands, gtr) ∧
        selectWinner cands = some t ∧ t.action = some name) ∧
    (∃ pre post, (send (fuel + 1) m ev).2.2 = pre ++ post ∧
      (∀ e ∈ pre, isGuardCallEv e = true) ∧
      (∀ e ∈ post, isGuardCallEv e = false)) ∧
    (∀ gtr : List (TraceEv V), m.running = true → m.processing = false →
      candSet m ev = (Except.ok [], gtr) → (send (fuel + 1) m ev).1 = m) ∧
    (∀ (cands : List MachineTransition) (gtr : List (TraceEv V)) (t : MachineTransition),
      m.running = true → m.processing = false →
      candSet m ev = (Except.ok cands, gtr) → selectWinner cands = some t →
      t ∈ cands ∧ (send (fuel + 1) m ev).1.state = t.toState) := by
  refine ⟨?_, ?_, ?_, ?_, ?_⟩
  · intro t g h cands gtr hg hG hfalse hF
    have hF1 : (filterCandidates m.config m.state m.context m.props ev
        m.config.transitions).1 = Except.ok cands := by
      show (candSet m ev).1 = Except.ok cands
      rw [hF]
    exact filterCandidates_not_mem hg hG hfalse hF1
  · intro name hmem
    cases hrun : m.running with
    | false =>
      rw [send_not_running fuel m ev hrun] at hmem
      simp at hmem
    | true =>
      cases hproc : m.processing with
      | true =>
        rw [send_processing (fuel + 1) m ev hproc] at hmem
        simp at hmem
      | false =>
        rw [send_succ_run fuel m ev hrun hproc] at hmem
        have hd := dispatch_action_call (send fuel)
          (fun m2 ev2 h => send_processing fuel m2 ev2 h) rfl hmem
        rcases hd with ⟨cands, gtr, t, hcs, hW, ha⟩
        rw [candSet_latch] at hcs
        exact ⟨cands, gtr, t, hcs, hW, ha⟩
  · cases hrun : m.running with
    | false =>
      rw [send_not_running fuel m ev hrun]
      exact ⟨[], [], rfl, by simp, by simp⟩
    | true =>
      cases hproc : m.processing with
      | true =>
        rw [send_processing (fuel + 1) m ev hproc]
        exact ⟨[], [], rfl, by simp, by simp⟩
      | false =>
        rw [send_succ_run fuel m ev hrun hproc]
        exact dispatch_trace_shape (send fuel)
          (fun m2 ev2 h => send_processing fuel m2 ev2 h) rfl
  · intro gtr hrun hproc hF
    have hF1 : candSet { m with processing := true } ev = (Except.ok [], gtr) := by
      rw [candSet_latch]; exact hF
    rw [send_succ_run fuel m ev hrun hproc, dispatch_no_winner (send fuel) hF1 rfl]
    exact machine_set_processing_eq hproc
  · intro cands gtr t hrun hproc hF hW
    have hF1 : candSet { m with processing := true } ev = (Except.ok cands, gtr) := by
      rw [candSet_latch]; exact hF
    refine ⟨?_, ?_⟩
    · have := selectWinner_eq_firstMax cands ▸ hW
      exact firstMax_mem this
    · rw [send_succ_run fuel m ev hrun hproc]
      show (dispatch (send fuel) { m with processing := true } ev).1.state = t.toState
      exact dispatch_state_winner (send fuel)
        (fun m2 ev2 h => send_processing fuel m2 ev2 h) rfl hF1 hW

/-- Witness for C5 at the rejecting-guard machine: the guarded priority-5
transition is eliminated from the candidate set, the lower-priority
guard-free transition survives and is applied, ending in state `"blue"`. -/
theorem guard_false_eliminates_witness :
    (⟨"green", "TOGGLE", "red", none, some "g", some 5⟩ : MachineTransition) ∉
      [(⟨"green", "TOGGLE", "blue", none, none, some 1⟩ : MachineTransition)] ∧
    (send 1 exE ⟨"TOGGLE"⟩).1.state = "blue" := by
  have h1 := (guard_false_eliminates exE ⟨"TOGGLE"⟩ 0).1
    ⟨"green", "TOGGLE", "red", none, some "g", some 5⟩ "g" (fun _ => false)
    [⟨"green", "TOGGLE", "blue", none, none, some 1⟩] [TraceEv.guardCall "g"]
    rfl rfl rfl rfl
  have h5 := (guard_false_eliminates exE ⟨"TOGGLE"⟩ 0).2.2.2.2
    [⟨"green", "TOGGLE", "blue", none, none, some 1⟩] [TraceEv.guardCall "g"]
    ⟨"green", "TOGGLE", "blue", none, none, some 1⟩
    rfl rfl rfl rfl
  exact ⟨h1, h5.2⟩

/-! ### The shallow-merge semantics of context updates -/

theorem lookupKey_cons {V : Type} (x : String × V) (l : Ctx V) (k : String) :
    lookupKey (x :: l) k = if x.1 == k then some x.2 else lookupKey l k := by
  cases h : x.1 == k <;> simp [lookupKey, List.find?_cons, h]

theorem lookupKey_append {V : Type} (x y : Ctx V) (k : String) :
    lookupKey (x ++ y) k = (lookupKey x k).or (lookupKey y k) := by
  unfold lookupKey
  rw [List.find?_append]
  cases x.find? (fun kv => kv.1 == k) <;> simp

theorem lookupKey_map_overwrite {V : Type} (a b : Ctx V) (k : String) :
    lookupKey (a.map (fun kv =>
      match lookupKey b kv.1 with
      | some v => (kv.1, v)
      | none => kv)) k =
      match lookupKey a k with
      | none => none
      | some v =>
        match lookupKey b k with
        | some w => some w
        | none => some v := by
  induction a with
  | nil => rfl
  | cons kv a ih =>
    rw [List.map_cons, lookupKey_cons, lookupKey_cons]
    by_cases hk : kv.1 == k
    · have hkeq : kv.1 = k := eq_of_beq hk
      cases hb : lookupKey b kv.1 with
      | some v =>
        rw [hkeq] at hb
        simp [hb, hk]
      | none =>
        rw [hkeq] at hb
        simp [hb, hk]
    · have hk2 : (kv.1 == k) = false := by
        cases h2 : kv.1 == k
        · rfl
        · exact absurd h2 hk
      cases hb : lookupKey b kv.1 with
      | some v => simp [hk2, ih]
      | none => simp [hk2, ih]

theorem lookupKey_filter_none {V : Type} (a b : Ctx V) (k : String)
    (h : lookupKey a k = none) :
    lookupKey (b.filter (fun kv => (lookupKey a kv.1).isNone)) k = lookupKey b k := by
  induction b with
  | nil => rfl
  | cons kv b ih =>
    by_cases hk : kv.1 == k
    · have hkeq : kv.1 = k := eq_of_beq hk
      have hp : ((lookupKey a kv.1).isNone) = true := by rw [hkeq, h]; rfl
      simp only [List.filter_cons, hp, if_true]
      rw [lookupKey_cons, lookupKey_cons, if_pos hk, if_pos hk]
    · have hk2 : (kv.1 == k) = false := by
        cases h2 : kv.1 == k
        · rfl
        · exact absurd h2 hk
      rw [lookupKey_cons, if_neg (by simp [hk2])]
      cases hp : ((lookupKey a kv.1).isNone) with
      | true =>
        simp only [List.filter_cons, hp, if_true]
        rw [lookupKey_cons, if_neg (by simp [hk2]), ih]
      | false =>
        simp only [List.filter_cons, hp, Bool.false_eq_true, if_false]
        exact ih

theorem lookupKey_filter_some {V : Type} (a b : Ctx V) (k : String)
    (h : (lookupKey a k).isSome = true) :
    lookupKey (b.filter (fun kv => (lookupKey a kv.1).isNone)) k = none := by
  induction b with
  | nil => rfl
  | cons kv b ih =>
    by_cases hk : kv.1 == k
    · have hkeq : kv.1 = k := eq_of_beq hk
      have hp : ((lookupKey a kv.1).isNone) = false := by
        rw [hkeq]
        cases h2 : lookupKey a k
        · rw [h2] at h
          simp at h
        · rfl
      simp only [List.filter_cons, hp, Bool.false_eq_true, if_false]
      exact ih
    · have hk2 : (kv.1 == k) = false := by
        cases h2 : kv.1 == k
        · rfl
        · exact absurd h2 hk
      cases hp : ((lookupKey a kv.1).isNone) with
      | true =>
        simp only [List.filter_cons, hp, if_true]
        rw [lookupKey_cons, if_neg (by simp [hk2])]
        exact ih
      | false =>
        simp only [List.filter_cons, hp, Bool.false_eq_true, if_false]
        exact ih

theorem lookupKey_jsMerge {V : Type} (a b : Ctx V) (k : String) :
    lookupKey (jsMerge a b) k =
      match lookupKey b k with
      | some v => some v
      | none => lookupKey a k := by
  unfold jsMerge
  rw [lookupKey_append, lookupKey_map_overwrite]
  cases ha : lookupKey a k with
  | none =>
    rw [lookupKey_filter_none a b k ha]
    cases hb : lookupKey b k <;> simp
  | some v =>
    rw [lookupKey_filter_some a b k (by rw [ha]; rfl)]
    cases hb : lookupKey b k <;> simp

/-- C6: when the winning transition's action handler returns a mapping, the
context after the dispatch is exactly the shallow merge of the previous
context with the returned mapping — returned keys overwrite, all other keys
are retained (characterized key-by-key through `lookupKey`); when the action
returns nothing, the context is value-unchanged. -/
theorem action_result_shallow_merged {V : Type} (m : Machine V) (ev : Event)
    (fuel : Nat) (cands : List MachineTransition) (gtr : List (TraceEv V))
    (t : MachineTransition) (a : String) (f : Params V → Option (Ctx V))
    (hrun : m.running = true) (hproc : m.processing = false)
    (hF : candSet m ev = (Except.ok cands, gtr))
    (hW : selectWinner cands = some t)
    (ha : t.action = some a)
    (hA : m.config.actions a = some (ActionBody.pure f)) :
    (∀ r : Ctx V, f ⟨m.context, ev, m.props⟩ = some r →
      (send (fuel + 1) m ev).1.context = jsMerge m.context r ∧
      ∀ k, lookupKey ((send (fuel + 1) m ev).1.context) k =
        match lookupKey r k with
        | some v => some v
        | none => lookupKey m.context k) ∧
    (f ⟨m.context, ev, m.props⟩ = none →
      (send (fuel + 1) m ev).1.context = m.context) := by
  have hF1 : candSet { m with processing := true } ev = (Except.ok cands, gtr) := by
    rw [candSet_latch]; exact hF
  refine ⟨?_, ?_⟩
  · intro r hf
    have hd := dispatch_pure_some (send fuel) hF1 hW ha hA hf
    rw [send_succ_run fuel m ev hrun hproc, hd]
    exact ⟨rfl, fun k => lookupKey_jsMerge m.context r k⟩
  · intro hf
    have hd := dispatch_pure_none (send fuel) hF1 hW ha hA hf
    rw [send_succ_run fuel m ev hrun hproc, hd]

/-- Witness for C6 at the merge test machine: context `count = 5` with an
action returning `count + 10` yields exactly `count = 15`. -/
theorem action_result_shallow_merged_witness :
    (send 1 exF ⟨"TOGGLE"⟩).1.context = [("count", 15)] ∧
    lookupKey ((send 1 exF ⟨"TOGGLE"⟩).1.context) "count" = some 15 := by
  have h := (action_result_shallow_merged exF ⟨"TOGGLE"⟩ 0
    [⟨"green", "TOGGLE", "red", some "increment", none, none⟩] []
    ⟨"green", "TOGGLE", "red", some "increment", none, none⟩ "increment"
    (fun p => some [("count", (lookupKey p.context "count").getD 0 + 10)])
    rfl rfl rfl rfl rfl rfl).1 [("count", 15)] rfl
  refine ⟨?_, ?_⟩
  · rw [h.1]
    rfl
  · rw [h.1]
    rfl

/-- C7: `subscribe` with default options behaves like `\x7bimmediate: true\x7d`
and invokes the listener synchronously exactly once with the current
`(state, context, props)` snapshot before returning; with
`\x7bimmediate: false\x7d` it does not invoke it at registration.  The
returned unsubscribe closure removes exactly that listener — no listener with
its identity remains, so a notification pass over the remaining set never
calls it (any listener call during notification carries an identity present
in the set) — and unsubscribing twice is a no-op. -/
theorem subscribe_immediate_and_unsubscribe {V : Type} (m : Machine V) (l : Listener V) :
    subscribe m l none = subscribe m l (some true) ∧
    (subscribe m l none).2.2 = [TraceEv.listenerCall l.id m.state m.context m.props] ∧
    (subscribe m l (some false)).2.2 = [] ∧
    (∀ o, (subscribe m l o).1.listeners = addListener m.listeners l) ∧
    ((∀ l2 ∈ m.listeners, l2.id ≠ l.id) → ∀ o,
      (unsubscribe (subscribe m l o).1 l.id).listeners = m.listeners ∧
      l.id ∉ ((unsubscribe (subscribe m l o).1 l.id).listeners.map Listener.id)) ∧
    (∀ (ls : List (Listener V)) (s : String) (c p : Ctx V) (i : Nat) (s2 : String)
        (c2 p2 : Ctx V),
      TraceEv.listenerCall i s2 c2 p2 ∈ notifyList ls s c p → i ∈ ls.map Listener.id) ∧
    (∀ (m2 : Machine V) (i : Nat), unsubscribe (unsubscribe m2 i) i = unsubscribe m2 i) := by
  have hadd : ∀ o : Option Bool, (subscribe m l o).1.listeners = addListener m.listeners l := by
    intro o
    cases o with
    | none =>
      by_cases hf : l.fails m.state m.context m.props <;>
        simp [subscribe, getContext, getProps, hf]
    | some b =>
      cases b with
      | false => simp [subscribe]
      | true =>
        by_cases hf : l.fails m.state m.context m.props <;>
          simp [subscribe, getContext, getProps, hf]
  have hnodup : (∀ l2 ∈ m.listeners, l2.id ≠ l.id) →
      addListener m.listeners l = m.listeners ++ [l] := by
    intro hdist
    have hany : (m.listeners.any (fun l2 => l2.id == l.id)) = false := by
      rw [List.any_eq_false]
      intro l2 hl2
      simp only [beq_iff_eq]
      exact hdist l2 hl2
    simp [addListener, hany]
  refine ⟨rfl, ?_, rfl, hadd, ?_, ?_, ?_⟩
  · by_cases hf : l.fails m.state m.context m.props <;>
      simp [subscribe, getContext, getProps, hf]
  · intro hdist o
    have hl : (unsubscribe (subscribe m l o).1 l.id).listeners =
        ((m.listeners ++ [l]).filter (fun l2 => l2.id != l.id)) := by
      show ((subscribe m l o).1.listeners).filter (fun l2 => l2.id != l.id) = _
      rw [hadd o, hnodup hdist]
    have hfl : ((m.listeners ++ [l]).filter (fun l2 => l2.id != l.id)) = m.listeners := by
      rw [List.filter_append]
      have h1 : m.listeners.filter (fun l2 => l2.id != l.id) = m.listeners := by
        rw [List.filter_eq_self]
        intro l2 hl2
        simp only [bne_iff_ne, ne_eq]
        exact hdist l2 hl2
      have h2 : ([l].filter (fun l2 => l2.id != l.id)) = [] := by
        simp
      rw [h1, h2, List.append_nil]
    refine ⟨by rw [hl, hfl], ?_⟩
    rw [hl, hfl]
    intro hmem
    rcases List.mem_map.mp hmem with ⟨l2, hl2, hid⟩
    exact hdist l2 hl2 hid
  · intro ls s c p i s2 c2 p2 h
    exact (notifyList_call_id h).1
  · intro m2 i
    cases m2
    simp [unsubscribe, List.filter_filter]

/-- Witness for C7: subscribing the well-behaved listener to the merge test
machine notifies it exactly once with the current snapshot; with
`immediate: false` it is not notified; unsubscribing removes it again. -/
theorem subscribe_immediate_and_unsubscribe_witness :
    (subscribe exF exL2 none).2.2 =
      [TraceEv.listenerCall 2 "green" [("count", 5)] []] ∧
    (subscribe exF exL2 (some false)).2.2 = [] ∧
    (unsubscribe (subscribe exF exL2 none).1 2).listeners = [] := by
  have h := subscribe_immediate_and_unsubscribe exF exL2
  have h5 := (h.2.2.2.2.1 (by intro l2 hl2; simp [exF, start, createMachine, exCfgF] at hl2)
    none).1
  exact ⟨h.2.1, h.2.2.1, h5⟩

/-- C10: when `subscribe` runs with immediate notification (the default) and
the listener throws during the registration-time invocation, the error
propagates to the caller of `subscribe` (it is not swallowed and no
diagnostic entry is produced, unlike errors during a notification pass), and
the listener nevertheless remains registered, because it is added to the
listener set before being invoked. -/
theorem subscribe_listener_throw_propagates {V : Type} (m : Machine V) (l : Listener V)
    (hfail : l.fails m.state m.context m.props = true) :
    (subscribe m l none).2.1 = some "Listener error" ∧
    (subscribe m l none).1.listeners = addListener m.listeners l ∧
    ((∀ l2 ∈ m.listeners, l2.id ≠ l.id) → l ∈ (subscribe m l none).1.listeners) ∧
    (∀ e ∈ (subscribe m l none).2.2, ∀ i : Nat, e ≠ TraceEv.listenerError i) := by
  refine ⟨?_, ?_, ?_, ?_⟩
  · simp [subscribe, getContext, getProps, hfail]
  · simp [subscribe, getContext, getProps, hfail]
  · intro hdist
    have hany : (m.listeners.any (fun l2 => l2.id == l.id)) = false := by
      rw [List.any_eq_false]
      intro l2 hl2
      simp only [beq_iff_eq]
      exact hdist l2 hl2
    simp [subscribe, getContext, getProps, hfail, addListener, hany]
  · intro e he i
    simp only [subscribe, getContext, getProps, hfail] at he
    simp at he
    rw [he]
    intro hcontra
    cases hcontra

/-- Witness for C10 at the always-throwing listener: the registration-time
invocation propagates the error and the listener is still registered. -/
theorem subscribe_listener_throw_propagates_witness :
    (subscribe exF exL1 none).2.1 = some "Listener error" ∧
    exL1 ∈ (subscribe exF exL1 none).1.listeners := by
  have h := subscribe_listener_throw_propagates exF exL1 rfl
  exact ⟨h.1, h.2.2.1 (by intro l2 hl2; simp [exF, start, createMachine, exCfgF] at hl2)⟩

theorem dispatch_error_shape {V : Type}
    (sendFn : Machine V → Event → Machine V × Option String × List (TraceEv V))
    {m : Machine V} {ev : Event}
    (hs : ∀ m2 ev2, (sendFn m2 ev2).2.1 = none ∨
      (∃ g, (sendFn m2 ev2).2.1 = some (guardNotFoundMsg g)) ∨
      (∃ a, (sendFn m2 ev2).2.1 = some (actionNotFoundMsg a))) :
    (dispatch sendFn m ev).2.1 = none ∨
    (∃ g, (dispatch sendFn m ev).2.1 = some (guardNotFoundMsg g)) ∨
    (∃ a, (dispatch sendFn m ev).2.1 = some (actionNotFoundMsg a)) := by
  rcases hcs : candSet m ev with ⟨res, gtr⟩
  cases res with
  | error e =>
    have he : (candSet m ev).1 = Except.error e := by rw [hcs]
    rcases filterCandidates_error_shape he with ⟨g, t, hmsg, _⟩
    rw [dispatch_filter_error sendFn hcs]
    exact Or.inr (Or.inl ⟨g, by rw [hmsg]⟩)
  | ok cands =>
    cases hW : selectWinner cands with
    | none =>
      rw [dispatch_no_winner sendFn hcs hW]
      exact Or.inl rfl
    | some t =>
      cases ha : t.action with
      | none =>
        rw [dispatch_no_action sendFn hcs hW ha]
        exact Or.inl rfl
      | some a =>
        cases hA : m.config.actions a with
        | none =>
          rw [dispatch_missing_action sendFn hcs hW ha hA]
          exact Or.inr (Or.inr ⟨a, rfl⟩)
        | some body =>
          cases body with
          | pure f =>
            cases hf : f ⟨m.context, ev, m.props⟩ with
            | some r =>
              rw [dispatch_pure_some sendFn hcs hW ha hA hf]
              exact Or.inl rfl
            | none =>
              rw [dispatch_pure_none sendFn hcs hW ha hA hf]
              exact Or.inl rfl
          | sendThen ev2 f =>
            rcases hs { m with state := t.toState } ev2 with hnone | ⟨g, hg⟩ | ⟨a2, ha2⟩
            · simp only [dispatch, hcs, hW, ha, hA, hnone]
              cases hf : f ⟨getContext { m with state := t.toState }, ev,
                  getProps { m with state := t.toState }⟩ <;> simp [hf]
            · simp only [dispatch, hcs, hW, ha, hA, hg]
              exact Or.inr (Or.inl ⟨g, rfl⟩)
            · simp only [dispatch, hcs, hW, ha, hA, ha2]
              exact Or.inr (Or.inr ⟨a2, rfl⟩)

theorem send_error_shape {V : Type} (fuel : Nat) (m : Machine V) (ev : Event) :
    (send fuel m ev).2.1 = none ∨
    (∃ g, (send fuel m ev).2.1 = some (guardNotFoundMsg g)) ∨
    (∃ a, (send fuel m ev).2.1 = some (actionNotFoundMsg a)) := by
  induction fuel generalizing m ev with
  | zero => exact Or.inl rfl
  | succ fuel ih =>
    cases hrun : m.running with
    | false =>
      rw [send_not_running fuel m ev hrun]
      exact Or.inl rfl
    | true =>
      cases hproc : m.processing with
      | true =>
        rw [send_processing (fuel + 1) m ev hproc]
        exact Or.inl rfl
      | false =>
        rw [send_succ_run fuel m ev hrun hproc]
        exact dispatch_error_shape (send fuel) (fun m2 ev2 => ih m2 ev2)

/-- C8: during a notification pass (`notifyList`, used by both `send` and
`syncProps`), every registered listener is invoked, in order, with the same
`(state, context, props)` arguments, regardless of earlier listener errors;
a throwing listener is reported to the diagnostic channel; and a listener
error never propagates to the caller of `send` (whose only possible errors
are the two configuration errors) or `syncProps` (which throws nothing and
runs the notification pass on the merged props). -/
theorem listener_error_isolation {V : Type} :
    (∀ (ls : List (Listener V)) (s : String) (c p : Ctx V),
      (notifyList ls s c p).filterMap callArgs = ls.map (fun l => (l.id, s, c, p))) ∧
    (∀ (ls : List (Listener V)) (l : Listener V) (s : String) (c p : Ctx V),
      l ∈ ls → l.fails s c p = true →
      TraceEv.listenerError l.id ∈ notifyList ls s c p) ∧
    (∀ (fuel : Nat) (m : Machine V) (ev : Event),
      (send fuel m ev).2.1 = none ∨
      (∃ g, (send fuel m ev).2.1 = some (guardNotFoundMsg g)) ∨
      (∃ a, (send fuel m ev).2.1 = some (actionNotFoundMsg a))) ∧
    (∀ (m : Machine V) (np : Ctx V),
      (syncProps m np).2 =
        notifyList m.listeners m.state m.context (jsMerge m.props np)) := by
  refine ⟨notifyList_calls, ?_, send_error_shape, fun m np => rfl⟩
  intro ls l s c p hmem hf
  exact notifyList_error_mem hmem s c p hf

/-- Witness for C8 at a two-listener pass where the first listener throws:
both listeners are still invoked with the same arguments, the failure is
reported, and a send over a machine carrying these listeners propagates no
error. -/
theorem listener_error_isolation_witness :
    (notifyList [exL1, exL2] "green" ([("count", 5)] : Ctx Int) []).filterMap callArgs =
      [(1, "green", [("count", 5)], []), (2, "green", [("count", 5)], [])] ∧
    TraceEv.listenerError 1 ∈ notifyList [exL1, exL2] "green" ([("count", 5)] : Ctx Int) [] ∧
    (send 1 { exF with listeners := [exL1, exL2] } ⟨"TOGGLE"⟩).2.1 = none := by
  have h := @listener_error_isolation Int
  refine ⟨h.1 [exL1, exL2] "green" [("count", 5)] [], ?_, ?_⟩
  · exact h.2.1 [exL1, exL2] exL1 "green" [("count", 5)] [] (by simp) rfl
  · rcases h.2.2.1 1 { exF with listeners := [exL1, exL2] } ⟨"TOGGLE"⟩ with
      hnone | ⟨g, hg⟩ | ⟨a, ha⟩
    · exact hnone
    · exact absurd hg (by intro hcontra; rw [show (send 1 { exF with
        listeners := [exL1, exL2] } ⟨"TOGGLE"⟩).2.1 = none from rfl] at hcontra; cases hcontra)
    · exact absurd ha (by intro hcontra; rw [show (send 1 { exF with
        listeners := [exL1, exL2] } ⟨"TOGGLE"⟩).2.1 = none from rfl] at hcontra; cases hcontra)

theorem get?_append_cons_length {α : Type} (l : List α) (a : α) (l' : List α) :
    (l ++ a :: l').get? l.length = some a := by
  induction l with
  | nil => rfl
  | cons x xs ih =>
    rw [List.cons_append, List.length_cons]
    exact ih

/-- C9: each call to `getContext()` / `getProps()` allocates a fresh frozen
snapshot object — two calls return distinct references, so snapshots are
independent copies that never alias the internally owned mapping; any write
attempt through a reference to a frozen snapshot throws (and hence no write
to one snapshot can affect another snapshot or the internal state); and a
snapshot held across a later `send` still holds exactly the context values
from the moment it was taken (dispatching only replaces the machine's own
mapping, never a handed-out snapshot). -/
theorem snapshots_fresh_frozen_independent {V : Type} (w : SnapWorld V) (ev : Event)
    (fuel : Nat) (k : String) (v : V) :
    (getContextW w).2 ≠ (getContextW (getContextW w).1).2 ∧
    (getContextW (getContextW w).1).1.snaps.get? (getContextW w).2 =
      some (freeze ⟨w.machine.context, false⟩) ∧
    (freeze ⟨w.machine.context, false⟩).frozen = true ∧
    (∀ (w3 : SnapWorld V) (i : Nat) (s : Snapshot V),
      w3.snaps.get? i = some s → s.frozen = true →
      ∃ e, writeSnapW w3 i k v = Except.error e) ∧
    (sendW fuel (getContextW w).1 ev).snaps.get? (getContextW w).2 =
      some (freeze ⟨w.machine.context, false⟩) ∧
    (getPropsW w).1.snaps.get? (getPropsW w).2 = some (freeze ⟨w.machine.props, false⟩) := by
  refine ⟨?_, ?_, rfl, ?_, ?_, ?_⟩
  · show w.snaps.length ≠ (w.snaps ++ [freeze ⟨w.machine.context, false⟩]).length
    rw [List.length_append]
    simp
  · show ((w.snaps ++ [freeze ⟨w.machine.context, false⟩]) ++
      [freeze ⟨w.machine.context, false⟩]).get? w.snaps.length = _
    rw [List.append_assoc, List.singleton_append]
    exact get?_append_cons_length w.snaps _ _
  · intro w3 i s hget hfrozen
    refine ⟨"TypeError: cannot mutate a frozen snapshot", ?_⟩
    simp only [writeSnapW, hget, snapWrite, hfrozen, if_true]
  · show (w.snaps ++ [freeze ⟨w.machine.context, false⟩]).get? w.snaps.length = _
    exact get?_append_cons_length w.snaps _ []
  · show (w.snaps ++ [freeze ⟨w.machine.props, false⟩]).get? w.snaps.length = _
    exact get?_append_cons_length w.snaps _ []

/-- Witness for C9 at a world around the merge test machine: the first two
context snapshots get the distinct references 0 and 1; writing through
reference 0 throws; after a `send` that changes the live context to
`count = 15`, the snapshot at reference 0 still holds `count = 5`. -/
theorem snapshots_fresh_frozen_independent_witness :
    (getContextW exW).2 ≠ (getContextW (getContextW exW).1).2 ∧
    (∃ e, writeSnapW (getContextW (getContextW exW).1).1 (getContextW exW).2
      "count" 99 = Except.error e) ∧
    (sendW 1 (getContextW exW).1 ⟨"TOGGLE"⟩).snaps.get? (getContextW exW).2 =
      some (freeze ⟨[("count", 5)], false⟩) ∧
    (sendW 1 (getContextW exW).1 ⟨"TOGGLE"⟩).machine.context = [("count", 15)] := by
  have h := snapshots_fresh_frozen_independent exW ⟨"TOGGLE"⟩ 1 "count" (99 : Int)
  refine ⟨h.1, ?_, h.2.2.2.2.1, rfl⟩
  exact h.2.2.2.1 (getContextW (getContextW exW).1).1 (getContextW exW).2
    (freeze ⟨exW.machine.context, false⟩) h.2.1 rfl
